import Mathlib

/-!
# Verification of the qml-mooc notebooks

Shallow embedding of the two notebooks of the repository:

* `coding_assignments/solutions/05_Gate-Model_Quantum_Computing.ipynb`
  (three exercises: a single-qubit X;H;X circuit, a three-qubit GHZ
  circuit, and its measurement statistics), and
* `qiskit_version/11_Kernel_Methods.ipynb` (`get_angle`,
  `prepare_state`, `interfere_data_and_test_instances`, `postselect`).

All gates appearing in the verified circuits (X, H, CNOT, CCX, RY) have
real matrices, so statevectors are embedded as real-valued amplitude
functions over basis states.  Amplitude vectors are listed in qiskit's
little-endian basis order (qubit 0 is the least significant bit of the
basis index).

The file is organised with all definitions first and all theorems
after them.
-/

namespace QmlMooc

/-! ## Definitions -/

/-! ### Single-qubit statevector model (exercise 1 of notebook 05)

A one-qubit state is its pair of real amplitudes, indexed by the basis
bit.  `xGate1` and `hGate1` are the Pauli-X and Hadamard matrices acting
on such a state. -/

abbrev State1 := Bool → ℝ

noncomputable def xGate1 (ψ : State1) : State1 := fun b => ψ (!b)

noncomputable def hGate1 (ψ : State1) : State1 := fun b =>
  (ψ false + (if b then -1 else 1) * ψ true) / Real.sqrt 2

/-- The initial state `|0⟩` of a fresh qiskit register. -/
noncomputable def init1 : State1 := fun b => if b then 0 else 1

/-- The amplitude vector, as `get_amplitudes` returns it. -/
noncomputable def amps1 (ψ : State1) : List ℝ := [ψ false, ψ true]

/-- The circuit of exercise 1: `circuit.x(q[0]); circuit.h(q[0]);
circuit.x(q[0])` applied to `|0⟩` (gates applied left to right). -/
noncomputable def exercise1_state : State1 := xGate1 (hGate1 (xGate1 init1))

/-! ### Three-qubit statevector model (exercises 2 and 3 of notebook 05)

A three-qubit state maps the bits of qubits 0, 1, 2 to a real
amplitude. -/

abbrev State3 := Bool → Bool → Bool → ℝ

/-- Hadamard on qubit 0 (`circuit.h(q[0])`). -/
noncomputable def hGate3q0 (ψ : State3) : State3 := fun b0 b1 b2 =>
  (ψ false b1 b2 + (if b0 then -1 else 1) * ψ true b1 b2) / Real.sqrt 2

/-- CNOT with control qubit 0 and target qubit 1 (`circuit.cx(q[0], q[1])`):
the target bit is flipped exactly when the control bit is set. -/
noncomputable def cxGate01 (ψ : State3) : State3 := fun b0 b1 b2 =>
  ψ b0 (xor b1 b0) b2

/-- CNOT with control qubit 1 and target qubit 2 (`circuit.cx(q[1], q[2])`). -/
noncomputable def cxGate12 (ψ : State3) : State3 := fun b0 b1 b2 =>
  ψ b0 b1 (xor b2 b1)

/-- The initial state `|000⟩`. -/
noncomputable def init3 : State3 := fun b0 b1 b2 =>
  if b0 || b1 || b2 then 0 else 1

/-- The amplitude vector in qiskit's little-endian basis order: entry `k`
is the amplitude of the basis state whose bits, from qubit 0 up, are the
binary digits of `k` from the least significant up. -/
noncomputable def amps3 (ψ : State3) : List ℝ :=
  [ψ false false false, ψ true false false, ψ false true false,
   ψ true true false, ψ false false true, ψ true false true,
   ψ false true true, ψ true true true]

/-- The circuit of exercise 2: `h(q[0]); cx(q[0], q[1]); cx(q[1], q[2])`
applied to `|000⟩`. -/
noncomputable def ghzState : State3 := cxGate12 (cxGate01 (hGate3q0 init3))

/-! ### Measurement statistics of the GHZ circuit (exercise 3 of
notebook 05)

Exercise 3 measures every qubit of the GHZ circuit and runs it for 100
shots via the helper `get_counts` (from `assignment_helper.py`, which is
not part of the repository sources).  Modelled from the spec: a run is
any list of 100 measurement outcomes, each of which is an outcome the
measured state assigns positive probability to; the counts dictionary
holds each outcome's multiplicity in that list. -/

/-- A measurement outcome: the measured bits of qubits 0, 1, 2. -/
abbrev Outcome := Bool × Bool × Bool

/-- The Born probability of an outcome when measuring the GHZ state:
the squared amplitude. -/
noncomputable def outcomeProb (o : Outcome) : ℝ :=
  (ghzState o.1 o.2.1 o.2.2) ^ 2

/-- A possible 100-shot run of the measured GHZ circuit: 100 outcomes,
each with positive probability. -/
noncomputable def validRun (shots : List Outcome) : Prop :=
  shots.length = 100 ∧ ∀ o ∈ shots, 0 < outcomeProb o

/-- A concrete exactly-50/50 run, used as witness input. -/
def sampleRun : List Outcome :=
  List.replicate 50 (false, false, false)
    ++ List.replicate 50 (true, true, true)

/-! ### Statevector model of the decomposed double-controlled RY
(`prepare_state` in `11_Kernel_Methods.ipynb`)

`prepare_state` works on the four qubits `ancilla_qubit = q[0]`,
`index_qubit = q[1]`, `data_qubit = q[2]`, `class_qubit = q[3]`.  The
four-gate sequence under scrutiny (`ccx; ry(-angles[1]); ccx;
ry(angles[1])`) touches only the first three, so it is modelled on a
three-qubit state whose arguments are read as (ancilla, index, data). -/

/-- Toffoli `circuit.ccx(ancilla_qubit, index_qubit, data_qubit)`: the
data bit flips exactly when the ancilla and index bits are both 1. -/
noncomputable def ccxAID (ψ : State3) : State3 := fun a i d =>
  ψ a i (if a && i then !d else d)

/-- `circuit.ry(θ, data_qubit)`: qiskit's
`RY(θ) = [[cos(θ/2), -sin(θ/2)], [sin(θ/2), cos(θ/2)]]` on the data
qubit. -/
noncomputable def ryData (θ : ℝ) (ψ : State3) : State3 := fun a i d =>
  if d then
    Real.sin (θ / 2) * ψ a i false + Real.cos (θ / 2) * ψ a i true
  else
    Real.cos (θ / 2) * ψ a i false - Real.sin (θ / 2) * ψ a i true

/-- The four-gate sequence of `prepare_state` for the second training
vector, gates applied left to right:
`circuit.ccx(ancilla_qubit, index_qubit, data_qubit);
circuit.ry(-angles[1], data_qubit);
circuit.ccx(ancilla_qubit, index_qubit, data_qubit);
circuit.ry(angles[1], data_qubit)`. -/
noncomputable def ccRySeq (angle : ℝ) (ψ : State3) : State3 :=
  ryData angle (ccxAID (ryData (-angle) (ccxAID ψ)))

/-! ### Circuit-building model (`11_Kernel_Methods.ipynb`)

The notebook builds circuits on a four-qubit register `q` and a
four-bit classical register `c` by appending gates.  A built circuit is
embedded as the list of appended operations; qubits are referred to by
their register index (`ancilla_qubit = 0`, `index_qubit = 1`,
`data_qubit = 2`, `class_qubit = 3`). -/

/-- One appended circuit operation.  `measureAll` stands for
`circuit.measure(q, c)`, which measures every qubit into the matching
classical bit. -/
inductive Gate where
  | h (q : ℕ)
  | x (q : ℕ)
  | cx (control target : ℕ)
  | ccx (control1 control2 target : ℕ)
  | ry (θ : ℝ) (q : ℕ)
  | cu3 (θ φ lam : ℝ) (control target : ℕ)
  | barrier
  | measureAll

/-- `prepare_state(q, c, angles)`: the full gate sequence appended to a
fresh `QuantumCircuit(q, c)`, with `angle0 = angles[0]` and
`angle1 = angles[1]`.  No input validation of any kind is performed: the
list is built for arbitrary real parameters. -/
noncomputable def prepare_state (angle0 angle1 : ℝ) : List Gate :=
  [Gate.h 0, Gate.h 1, Gate.barrier,
   Gate.cu3 angle0 0 0 0 2, Gate.x 0, Gate.barrier,
   Gate.ccx 0 1 2, Gate.x 1, Gate.barrier,
   Gate.ccx 0 1 2, Gate.ry (-angle1) 2, Gate.ccx 0 1 2, Gate.ry angle1 2,
   Gate.barrier,
   Gate.cx 1 3]

/-- `interfere_data_and_test_instances(circuit, q, c, angles)`: appends
`circuit.h(q[0]); circuit.barrier(); circuit.measure(q, c)` to the given
circuit and returns it.  The `angles` argument is accepted but never
used. -/
noncomputable def interfere_data_and_test_instances
    (circuit : List Gate) (angles : List ℝ) : List Gate :=
  circuit ++ [Gate.h 0, Gate.barrier, Gate.measureAll]

/-! ### `get_angle` and the NaN behaviour of `np.arccos`

`np.arccos` is a total function on floats: outside `[-1, 1]` it returns
the float `nan` (with a runtime warning) instead of raising.  `NpFloat`
models a numpy float exactly on this fragment: either a real value or
`nan`, with real arithmetic mapped over it (every arithmetic operation
on `nan` yields `nan` again). -/

inductive NpFloat where
  | val (x : ℝ)
  | nan

/-- Arithmetic on a numpy float: a real operation applied to a value,
`nan` propagated. -/
def NpFloat.map (f : ℝ → ℝ) : NpFloat → NpFloat
  | NpFloat.val x => NpFloat.val (f x)
  | NpFloat.nan => NpFloat.nan

/-- `np.arccos`: the real arc-cosine on `[-1, 1]`, and `nan` (not an
exception) outside that domain. -/
noncomputable def np_arccos (x : ℝ) : NpFloat :=
  if -1 ≤ x ∧ x ≤ 1 then NpFloat.val (Real.arccos x) else NpFloat.nan

/-- `get_angle(amplitude_0)`: `return 2*np.arccos(amplitude_0)`. -/
noncomputable def get_angle (amplitude_0 : ℝ) : NpFloat :=
  NpFloat.map (fun y => 2 * y) (np_arccos amplitude_0)

/-! The data of the notebook and the angle computations of its cell
`In [5]`. -/

def training_set : List (List ℝ) := [[0, 1], [0.79, 0.615]]

def test_set : List (List ℝ) := [[-0.549, 0.836], [0.053, 0.999]]

/-- `test_angles = [get_angle(test_set[0][0]), get_angle(test_set[1][0])]`. -/
noncomputable def test_angles : List NpFloat :=
  [get_angle (-0.549), get_angle 0.053]

/-- `training_angle = get_angle(training_set[1][0])/2`. -/
noncomputable def training_angle : NpFloat :=
  NpFloat.map (fun y => y / 2) (get_angle 0.79)

/-- `angles = [test_angles[0], training_angle]`. -/
noncomputable def angles : List NpFloat :=
  [test_angles.getD 0 NpFloat.nan, training_angle]

/-! ### `postselect` (`11_Kernel_Methods.ipynb`)

`postselect(result_counts)` takes the counts dictionary returned by
`result.get_counts`, whose keys are the measured bit strings (qiskit
prints qubit 3 first and qubit 0 last, so `state[-1]` is the ancilla bit
and `state[0]` the class bit).  The dictionary is embedded as an
association list of (bit string, occurrences) pairs; a python dict has
distinct keys, which theorems assume via a `Nodup` hypothesis where the
`dict(...)` conversion inside the function matters.  Python's true
division is embedded as exact division on `ℚ`, and a
`ZeroDivisionError` as an `Except.error` naming the expression that
raised it. -/

/-- The two ways `postselect` can raise `ZeroDivisionError`: at
`postselected_samples/total_samples` or at
`sum(retrieve_class(0))/postselected_samples`. -/
inductive PSFailure where
  | totalSamplesZero
  | postselectedSamplesZero
  deriving DecidableEq

/-- The lambda `post_select`: keeps the items whose state string has
last character `'0'` (`state[-1] == '0'`, the ancilla measured 0). -/
def post_select (counts : List (List Char × ℕ)) : List (List Char × ℕ) :=
  counts.filter (fun p => p.1.getLast? = some '0')

/-- The lambda `retrieve_class`: the occurrence counts of the items
whose state string has first character `str(binary_class)` (the class
bit).  It is only ever called with `binary_class` 0 or 1. -/
def retrieve_class (binary_class : ℕ)
    (postselection : List (List Char × ℕ)) : List ℕ :=
  (postselection.filter
    (fun p => p.1.head? = some (if binary_class = 0 then '0' else '1'))).map
    Prod.snd

/-- `postselect(result_counts)`, with its three printed quantities
`(ancilla_post_selection, prob_class0, prob_class1)` as the result. -/
def postselect (result_counts : List (List Char × ℕ)) :
    Except PSFailure (ℚ × ℚ × ℚ) :=
  let total_samples := (result_counts.map Prod.snd).sum
  let postselection := post_select result_counts
  let postselected_samples := (postselection.map Prod.snd).sum
  if total_samples = 0 then Except.error PSFailure.totalSamplesZero
  else if postselected_samples = 0 then
    Except.error PSFailure.postselectedSamplesZero
  else
    Except.ok ((postselected_samples : ℚ) / (total_samples : ℚ),
      ((retrieve_class 0 postselection).sum : ℚ) / (postselected_samples : ℚ),
      ((retrieve_class 1 postselection).sum : ℚ) / (postselected_samples : ℚ))

/-- A sample counts dictionary used as concrete input by witnesses. -/
def sampleCounts : List (List Char × ℕ) :=
  [([ '0', '0'], 3), ([ '1', '0'], 1), ([ '0', '1'], 2)]

/-! ## Theorems -/

/-- Pointwise evaluation of the GHZ state: amplitude `1/√2` on `|000⟩`
and `|111⟩`, `0` elsewhere. -/
lemma ghzState_eval (b0 b1 b2 : Bool) :
    ghzState b0 b1 b2 =
      if (b0 && b1 && b2) || (!b0 && !b1 && !b2) then 1 / Real.sqrt 2
      else 0 := by
  cases b0 <;> cases b1 <;> cases b2 <;>
    simp [ghzState, cxGate12, cxGate01, hGate3q0, init3]

/-- The outcome `000` of measuring the GHZ state has probability 1/2. -/
lemma outcomeProb_000 : outcomeProb (false, false, false) = 1 / 2 := by
  have h2 : Real.sqrt 2 ^ 2 = 2 := Real.sq_sqrt (by norm_num)
  simp [outcomeProb, ghzState_eval, div_pow, h2]

/-- The outcome `111` of measuring the GHZ state has probability 1/2. -/
lemma outcomeProb_111 : outcomeProb (true, true, true) = 1 / 2 := by
  have h2 : Real.sqrt 2 ^ 2 = 2 := Real.sq_sqrt (by norm_num)
  simp [outcomeProb, ghzState_eval, div_pow, h2]

/-- C4: For exercise 1, the single-qubit circuit X; H; X applied to the
initial state `|0⟩` produces the amplitude vector `[-1/√2, 1/√2]`, as the
notebook assertion `np.allclose(amplitudes, [-1/sqrt(2), 1/sqrt(2)])`
checks. -/
theorem exercise1_amplitudes :
    amps1 exercise1_state = [-(1 / Real.sqrt 2), 1 / Real.sqrt 2] := by
  simp [amps1, exercise1_state, xGate1, hGate1, init1]
  ring

/-- C5: For exercise 2, the three-qubit circuit H on qubit 0;
CNOT(0,1); CNOT(1,2) applied to `|000⟩` produces the GHZ amplitude
vector `[1/√2, 0, 0, 0, 0, 0, 0, 1/√2]`. -/
theorem exercise2_ghz_amplitudes :
    amps3 ghzState =
      [1 / Real.sqrt 2, 0, 0, 0, 0, 0, 0, 1 / Real.sqrt 2] := by
  simp [amps3, ghzState_eval]

/-- C1: the sequence `ccx; ry(-angles[1]); ccx; ry(angles[1])` of
`prepare_state` implements a double-controlled RY rotation: on every
basis-state sector where the ancilla and index bits are both 1 it acts on
the data qubit as `RY(2 * angles[1])` (the two half-angle rotations add
up), and on every other sector it acts as the identity (the two
opposite-sign rotations cancel). -/
theorem ccry_decomposition (angle : ℝ) (ψ : State3) (a i d : Bool) :
    ccRySeq angle ψ a i d =
      if a && i then ryData (2 * angle) ψ a i d else ψ a i d := by
  have hp : Real.sin (angle / 2) * Real.sin (angle / 2)
      + Real.cos (angle / 2) * Real.cos (angle / 2) = 1 := by
    have h := Real.sin_sq_add_cos_sq (angle / 2)
    ring_nf
    ring_nf at h
    linarith
  have e : angle = angle / 2 + angle / 2 := by ring
  have hc : Real.cos angle
      = Real.cos (angle / 2) * Real.cos (angle / 2)
        - Real.sin (angle / 2) * Real.sin (angle / 2) := by
    nth_rewrite 1 [e]
    rw [Real.cos_add]
  have hs : Real.sin angle
      = Real.sin (angle / 2) * Real.cos (angle / 2)
        + Real.cos (angle / 2) * Real.sin (angle / 2) := by
    nth_rewrite 1 [e]
    rw [Real.sin_add]
  cases a <;> cases i <;> cases d
  all_goals simp [ccRySeq, ryData, ccxAID, neg_div, Real.cos_neg,
    Real.sin_neg]
  · linear_combination (ψ false false false) * hp
  · linear_combination (ψ false false true) * hp
  · linear_combination (ψ false true false) * hp
  · linear_combination (ψ false true true) * hp
  · linear_combination (ψ true false false) * hp
  · linear_combination (ψ true false true) * hp
  · rw [hc, hs]; ring
  · rw [hc, hs]; ring

/-- C10: `interfere_data_and_test_instances` appends exactly a Hadamard
on `q[0]`, a barrier, and a measurement of all qubits after the
previously appended gates, which it leaves unchanged; consequently the
result does not depend on the `angles` argument. -/
theorem interfere_appends_h_barrier_measure
    (circuit : List Gate) (angles0 : List ℝ) :
    interfere_data_and_test_instances circuit angles0
        = circuit ++ [Gate.h 0, Gate.barrier, Gate.measureAll]
      ∧ (interfere_data_and_test_instances circuit angles0).take
          circuit.length = circuit
      ∧ ∀ angles1 : List ℝ,
          interfere_data_and_test_instances circuit angles0
            = interfere_data_and_test_instances circuit angles1 := by
  refine ⟨rfl, ?_, fun angles1 => rfl⟩
  simp [interfere_data_and_test_instances]

/-- C2 counterexample: the rotation parameter stored in `angles[1]` for
the second training vector is NOT `get_angle(training_set[1][0])`: the
notebook sets `training_angle = get_angle(training_set[1][0])/2`, which
differs from the full angle because `arccos(0.79) > 0`. -/
theorem training_angle_not_full_angle :
    ¬ (angles.getD 1 NpFloat.nan = get_angle 0.79) := by
  have hpos : 0 < Real.arccos 0.79 :=
    Real.arccos_pos.mpr (by norm_num)
  have hdom : -1 ≤ (0.79 : ℝ) ∧ (0.79 : ℝ) ≤ 1 := by norm_num
  simp [angles, training_angle, get_angle, np_arccos, NpFloat.map, hdom]
  intro h
  linarith

/-- C2 amended: `get_angle(a0)` returns exactly `2*arccos(a0)` on the
domain of normalized amplitudes, and this full angle is what `angles[0]`
receives for the test vector; the second training vector's parameter
`angles[1]`, however, is the half angle `get_angle(training_set[1][0])/2
= arccos(0.79)`, so that the decomposed double-controlled RY (which
rotates by twice its parameter) applies the full angle. -/
theorem angle_encoding_amended (a : ℝ) (h1 : -1 ≤ a) (h2 : a ≤ 1) :
    get_angle a = NpFloat.val (2 * Real.arccos a)
    ∧ angles.getD 0 NpFloat.nan = NpFloat.val (2 * Real.arccos (-0.549))
    ∧ angles.getD 1 NpFloat.nan = NpFloat.val (Real.arccos 0.79) := by
  refine ⟨?_, ?_, ?_⟩
  · simp [get_angle, np_arccos, NpFloat.map, h1, h2]
  · have hdom : -1 ≤ (-0.549 : ℝ) ∧ (-0.549 : ℝ) ≤ 1 := by norm_num
    simp [angles, test_angles, get_angle, np_arccos, NpFloat.map, hdom]
  · have hdom : -1 ≤ (0.79 : ℝ) ∧ (0.79 : ℝ) ≤ 1 := by norm_num
    simp [angles, training_angle, get_angle, np_arccos, NpFloat.map, hdom]

/-- Witness for the amended C2 theorem at the concrete input `a = 0`. -/
theorem angle_encoding_amended_witness :
    get_angle 0 = NpFloat.val (2 * Real.arccos 0)
    ∧ angles.getD 0 NpFloat.nan = NpFloat.val (2 * Real.arccos (-0.549))
    ∧ angles.getD 1 NpFloat.nan = NpFloat.val (Real.arccos 0.79) :=
  angle_encoding_amended 0 (by norm_num) (by norm_num)

/-- C7: nothing rejects an unnormalized input.  For every `a0` with
`|a0| > 1`, `get_angle a0` evaluates to the float `nan` rather than
raising, and `prepare_state` still builds its full 15-operation gate
list for arbitrary real parameters — no code path checks
normalization. -/
theorem no_normalization_check (a0 : ℝ) (h : 1 < |a0|) :
    get_angle a0 = NpFloat.nan
    ∧ ∀ a1 : ℝ, (prepare_state a0 a1).length = 15 := by
  constructor
  · have hout : ¬ (-1 ≤ a0 ∧ a0 ≤ 1) := by
      intro ⟨hl, hr⟩
      have := abs_le.mpr ⟨hl, hr⟩
      linarith
    simp [get_angle, np_arccos, NpFloat.map, hout]
  · intro a1
    rfl

/-- Witness for C7 at the concrete unnormalized input `a0 = 2`. -/
theorem no_normalization_check_witness :
    get_angle 2 = NpFloat.nan ∧ (prepare_state 2 3).length = 15 :=
  ⟨(no_normalization_check 2 (by norm_num)).1,
   (no_normalization_check 2 (by norm_num)).2 3⟩

/-- Filtering the postselected items again by class bit is one combined
filter over the original counts: class 0. -/
lemma retrieve_class0_sum (l : List (List Char × ℕ)) :
    (retrieve_class 0 (post_select l)).sum
      = ((l.filter (fun p => p.1.getLast? = some '0'
          ∧ p.1.head? = some '0')).map Prod.snd).sum := by
  unfold retrieve_class post_select
  rw [List.filter_filter]
  congr 1
  congr 1
  apply List.filter_congr
  intro p _
  simp [Bool.and_comm]

/-- Filtering the postselected items again by class bit is one combined
filter over the original counts: class 1. -/
lemma retrieve_class1_sum (l : List (List Char × ℕ)) :
    (retrieve_class 1 (post_select l)).sum
      = ((l.filter (fun p => p.1.getLast? = some '0'
          ∧ p.1.head? = some '1')).map Prod.snd).sum := by
  unfold retrieve_class post_select
  rw [List.filter_filter]
  congr 1
  congr 1
  apply List.filter_congr
  intro p _
  simp [Bool.and_comm]

/-- C3: `postselect` implements post-selection as the glossary defines
it.  When it completes with `(ancilla_post_selection, prob_class0,
prob_class1)`, the postselected items are exactly the input entries
whose state string ends in `'0'` (ancilla measured 0); the ancilla
post-selection ratio is their count total over the whole count total;
and `prob_class0` (resp. `prob_class1`) is the kept counts whose state
string starts with `'0'` (resp. `'1'`) divided by the postselected
sample total. -/
theorem postselect_spec (result_counts : List (List Char × ℕ))
    (hnodup : (result_counts.map Prod.fst).Nodup)
    (ap p0 p1 : ℚ)
    (hok : postselect result_counts = Except.ok (ap, p0, p1)) :
    (∀ p : List Char × ℕ,
        p ∈ post_select result_counts
          ↔ p ∈ result_counts ∧ p.1.getLast? = some '0')
    ∧ ap = (((post_select result_counts).map Prod.snd).sum : ℚ)
          / ((result_counts.map Prod.snd).sum : ℚ)
    ∧ p0 = (((result_counts.filter (fun p => p.1.getLast? = some '0'
            ∧ p.1.head? = some '0')).map Prod.snd).sum : ℚ)
          / (((post_select result_counts).map Prod.snd).sum : ℚ)
    ∧ p1 = (((result_counts.filter (fun p => p.1.getLast? = some '0'
            ∧ p.1.head? = some '1')).map Prod.snd).sum : ℚ)
          / (((post_select result_counts).map Prod.snd).sum : ℚ) := by
  by_cases h1 : (result_counts.map Prod.snd).sum = 0
  · simp [postselect, h1] at hok
  by_cases h2 : ((post_select result_counts).map Prod.snd).sum = 0
  · simp [postselect, h1, h2] at hok
  simp only [postselect, h1, if_false, h2, if_true, if_neg,
    Except.ok.injEq, Prod.mk.injEq] at hok
  obtain ⟨hap, hp0, hp1⟩ := hok
  refine ⟨?_, ?_, ?_, ?_⟩
  · intro p
    simp [post_select, List.mem_filter]
  · rw [← hap]
  · rw [← hp0, retrieve_class0_sum]
  · rw [← hp1, retrieve_class1_sum]

/-- Evaluation of `postselect` on the sample dictionary
`{'00': 3, '10': 1, '01': 2}`: 4 of the 6 samples survive
post-selection, 3 of them are class 0 and 1 is class 1. -/
lemma postselect_sampleCounts :
    postselect sampleCounts = Except.ok (2 / 3, 3 / 4, 1 / 4) := by
  simp only [postselect, post_select, retrieve_class, sampleCounts]
  norm_num [List.filter, List.getLast?, List.head?,
    show decide (('1':Char) = '0') = false from rfl,
    show decide (('0':Char) = '1') = false from rfl]

/-- Witness for C3 on the concrete counts dictionary
`{'00': 3, '10': 1, '01': 2}`: the kept samples total 4 of 6, class 0
gets 3/4 and class 1 gets 1/4. -/
theorem postselect_spec_witness :
    (3 / 4 : ℚ)
      = (((sampleCounts.filter (fun p => p.1.getLast? = some '0'
          ∧ p.1.head? = some '0')).map Prod.snd).sum : ℚ)
        / (((post_select sampleCounts).map Prod.snd).sum : ℚ) :=
  (postselect_spec sampleCounts (by decide) (2 / 3) (3 / 4) (1 / 4)
    postselect_sampleCounts).2.2.1

/-- The counts of a list of items whose class bit is `'0'` or `'1'`
split into the two `retrieve_class` sums. -/
lemma sum_partition_by_head (l : List (List Char × ℕ))
    (h : ∀ p ∈ l, p.1.head? = some '0' ∨ p.1.head? = some '1') :
    (retrieve_class 0 l).sum + (retrieve_class 1 l).sum
      = (l.map Prod.snd).sum := by
  induction l with
  | nil => simp [retrieve_class]
  | cons a t ih =>
    have iht := ih (fun p hp => h p (List.mem_cons_of_mem a hp))
    rcases h a (List.mem_cons_self a t) with h0 | h1
    · simp only [retrieve_class, List.filter_cons, h0] at iht ⊢
      simp at iht ⊢
      omega
    · simp only [retrieve_class, List.filter_cons, h1] at iht ⊢
      simp at iht ⊢
      omega

/-- C8: whenever every postselected entry's class bit is `'0'` or `'1'`
(as is the case for measured bit strings) and `postselect` completes,
the two class probabilities it computes sum to 1: the class-0 and
class-1 counts partition the postselected samples. -/
theorem postselect_probs_sum_one (result_counts : List (List Char × ℕ))
    (hclass : ∀ p ∈ post_select result_counts,
        p.1.head? = some '0' ∨ p.1.head? = some '1')
    (ap p0 p1 : ℚ)
    (hok : postselect result_counts = Except.ok (ap, p0, p1)) :
    p0 + p1 = 1 := by
  by_cases h1 : (result_counts.map Prod.snd).sum = 0
  · simp [postselect, h1] at hok
  by_cases h2 : ((post_select result_counts).map Prod.snd).sum = 0
  · simp [postselect, h1, h2] at hok
  simp only [postselect, h1, if_false, h2, if_neg,
    Except.ok.injEq, Prod.mk.injEq] at hok
  obtain ⟨-, hp0, hp1⟩ := hok
  have hsum := sum_partition_by_head (post_select result_counts) hclass
  have hcast : ((retrieve_class 0 (post_select result_counts)).sum : ℚ)
      + ((retrieve_class 1 (post_select result_counts)).sum : ℚ)
      = (((post_select result_counts).map Prod.snd).sum : ℚ) := by
    exact_mod_cast congrArg (Nat.cast : ℕ → ℚ) hsum
  rw [← hp0, ← hp1, div_add_div_same, hcast, div_self]
  exact_mod_cast h2

/-- Witness for C8 on the concrete counts dictionary
`{'00': 3, '10': 1, '01': 2}`. -/
theorem postselect_probs_sum_one_witness : (3 / 4 : ℚ) + 1 / 4 = 1 :=
  postselect_probs_sum_one sampleCounts (by decide) (2 / 3) (3 / 4)
    (1 / 4) postselect_sampleCounts

/-- C9: `postselect` is partial.  For counts dictionaries (all recorded
occurrence counts positive): an empty dictionary fails with the
division by zero at `ancilla_post_selection`; a nonempty dictionary
none of whose state strings ends in `'0'` fails with the division by
zero at `prob_class0`; and the function completes normally exactly when
some outcome has ancilla bit `'0'`. -/
theorem postselect_partiality (result_counts : List (List Char × ℕ))
    (hpos : ∀ p ∈ result_counts, 0 < p.2) :
    (result_counts = [] →
        postselect result_counts = Except.error PSFailure.totalSamplesZero)
    ∧ (result_counts ≠ [] →
        (∀ p ∈ result_counts, p.1.getLast? ≠ some '0') →
        postselect result_counts
          = Except.error PSFailure.postselectedSamplesZero)
    ∧ ((∃ r, postselect result_counts = Except.ok r)
        ↔ ∃ p ∈ result_counts, p.1.getLast? = some '0') := by
  refine ⟨?_, ?_, ?_, ?_⟩
  · rintro rfl
    rfl
  · intro hne hnone
    have hkept : post_select result_counts = [] := by
      rw [post_select, List.filter_eq_nil_iff]
      intro p hp
      simpa using hnone p hp
    have htot : (result_counts.map Prod.snd).sum ≠ 0 := by
      rcases result_counts with _ | ⟨a, t⟩
      · exact absurd rfl hne
      · have ha := hpos a (List.mem_cons_self a t)
        simp only [List.map_cons, List.sum_cons]
        omega
    simp [postselect, htot, hkept]
  · rintro ⟨r, hr⟩
    by_contra hno
    push_neg at hno
    have hkept : post_select result_counts = [] := by
      rw [post_select, List.filter_eq_nil_iff]
      intro p hp
      simpa using hno p hp
    by_cases h1 : (result_counts.map Prod.snd).sum = 0
    · simp [postselect, h1] at hr
    · simp [postselect, h1, hkept] at hr
  · rintro ⟨p, hp, h0⟩
    have hkeptmem : p ∈ post_select result_counts := by
      simp [post_select, List.mem_filter, hp, h0]
    have hppos := hpos p hp
    have hkpos : ((post_select result_counts).map Prod.snd).sum ≠ 0 := by
      have hmem : p.2 ∈ (post_select result_counts).map Prod.snd :=
        List.mem_map_of_mem Prod.snd hkeptmem
      have := List.le_sum_of_mem hmem
      omega
    have htpos : (result_counts.map Prod.snd).sum ≠ 0 := by
      have hmem : p.2 ∈ result_counts.map Prod.snd :=
        List.mem_map_of_mem Prod.snd hp
      have := List.le_sum_of_mem hmem
      omega
    cases hpe : postselect result_counts with
    | error e =>
      exfalso
      simp [postselect, htpos, hkpos] at hpe
    | ok r => exact ⟨r, rfl⟩

/-- Witness for C9 at the concrete empty counts dictionary. -/
theorem postselect_partiality_witness :
    postselect [] = Except.error PSFailure.totalSamplesZero :=
  (postselect_partiality [] (by simp)).1 rfl

/-- An outcome of positive probability under the GHZ measurement is
`000` or `111`. -/
lemma outcome_of_pos {o : Outcome} (h : 0 < outcomeProb o) :
    o = (false, false, false) ∨ o = (true, true, true) := by
  obtain ⟨b0, b1, b2⟩ := o
  cases b0 <;> cases b1 <;> cases b2 <;>
    simp_all [outcomeProb, ghzState_eval]

/-- In a list of outcomes drawn from `{000, 111}`, the two counts
partition the length. -/
lemma count_pair (l : List Outcome)
    (h : ∀ o ∈ l, o = (false, false, false) ∨ o = (true, true, true)) :
    l.count (false, false, false) + l.count (true, true, true)
      = l.length := by
  induction l with
  | nil => simp
  | cons a t ih =>
    have iht := ih (fun o ho => h o (List.mem_cons_of_mem a ho))
    rcases h a (List.mem_cons_self a t) with rfl | rfl <;>
      simp [List.count_cons] <;> omega

/-- The 50/50 sample run is a possible run of the measured GHZ
circuit. -/
lemma sampleRun_valid : validRun sampleRun := by
  constructor
  · simp [sampleRun]
  · intro o ho
    rcases List.mem_append.mp ho with hm | hm
    · rw [List.eq_of_mem_replicate hm, outcomeProb_000]
      norm_num
    · rw [List.eq_of_mem_replicate hm, outcomeProb_111]
      norm_num

/-- C6 counterexample: a run of 100 shots in which every draw comes out
`000` is a possible run of the measured GHZ circuit (each shot is an
outcome of positive probability), yet it violates the notebook
assertion `abs(counts['000']/100 - .5) < 0.1`.  The approximate 50/50
split is a statistical expectation, not a property that holds for every
run. -/
theorem ghz_split_counterexample :
    validRun (List.replicate 100
      ((false : Bool), (false : Bool), (false : Bool)))
    ∧ ¬ (|((List.replicate 100
          ((false : Bool), (false : Bool), (false : Bool))).count
            (false, false, false) : ℝ) / 100 - 0.5| < 0.1) := by
  constructor
  · refine ⟨by simp, ?_⟩
    intro o ho
    rw [List.eq_of_mem_replicate ho, outcomeProb_000]
    norm_num
  · rw [List.count_replicate_self]
    have he : ((100 : ℕ) : ℝ) / 100 - 0.5 = 0.5 := by norm_num
    rw [he, abs_of_nonneg (by norm_num)]
    norm_num

/-- C6 amended: for every possible 100-shot run of the measured GHZ
circuit, each measurement outcome is `000` or `111`, the two counts
partition the 100 shots (`counts['000'] + counts['111'] == 100`), and
each of the two outcomes has probability 1/2.  The further assertion
that observed counts land within 0.1 of a 50/50 ratio holds for typical
runs but not for all of them. -/
theorem ghz_run_statistics (shots : List Outcome) (h : validRun shots) :
    (∀ o ∈ shots, o = (false, false, false) ∨ o = (true, true, true))
    ∧ shots.count (false, false, false) + shots.count (true, true, true)
        = 100
    ∧ outcomeProb (false, false, false) = 1 / 2
    ∧ outcomeProb (true, true, true) = 1 / 2 := by
  obtain ⟨hlen, hpos⟩ := h
  have hsupp : ∀ o ∈ shots,
      o = (false, false, false) ∨ o = (true, true, true) :=
    fun o ho => outcome_of_pos (hpos o ho)
  exact ⟨hsupp, by rw [count_pair shots hsupp, hlen],
    outcomeProb_000, outcomeProb_111⟩

/-- Witness for the amended C6 theorem on the concrete 50/50 run. -/
theorem ghz_run_statistics_witness :
    sampleRun.count (false, false, false)
      + sampleRun.count (true, true, true) = 100 :=
  (ghz_run_statistics sampleRun sampleRun_valid).2.1

end QmlMooc
